import Mathlib

/-!
# Verification of the RAG retrieval path (`rag.py`)

Shallow embedding of the retrieval-augmented generation module: document
storage with an inverted word index (`DocumentStore`), deterministic
hash-based embedding (`EmbeddingGenerator`), cosine similarity, context
ranking (`ContextRetriever`) and response assembly (`ResponseGenerator`).

Python dictionaries are modelled as association lists with Python's dict
semantics: insertion keeps the position of an existing key (update in
place), a new key is appended at the end, and iteration follows list
order.  Python's stable `sorted(..., reverse=True)` is modelled by a
stable descending insertion sort.  Python `int` is `Int`/`Nat`, Python
floats produced by the embedding code are exact decimals, modelled as
`ℚ`; cosine similarity needs a square root, so the similarity layer is
the standard real-number idealisation of the float code.
-/

namespace RAG

/-! ## Python dict as association list -/

/-- Python dict lookup `m.get(k)` / `m[k]`: value of the first pair whose
key is `k`. -/
def dictGet? {α : Type} : List (String × α) → String → Option α
  | [], _ => none
  | (k', v) :: rest, k => if k' = k then some v else dictGet? rest k

/-- Python dict assignment `m[k] = v`: overwrite in place when the key is
present (keeping its position), otherwise append at the end. -/
def dictInsert {α : Type} : List (String × α) → String → α → List (String × α)
  | [], k, v => [(k, v)]
  | (k', v') :: rest, k, v =>
    if k' = k then (k, v) :: rest else (k', v') :: dictInsert rest k v

/-- Python `k in m`. -/
def dictContains {α : Type} (m : List (String × α)) (k : String) : Bool :=
  (dictGet? m k).isSome

/-- Lookup with default, Python `m.get(k, d)`. -/
def dictGetD {α : Type} (m : List (String × α)) (k : String) (d : α) : α :=
  (dictGet? m k).getD d

/-! ## Python list/str helpers -/

/-- Python `str.lower()`, character by character (the inputs of interest
are ASCII, where the two agree). -/
def pyLower (s : String) : String := ⟨s.data.map Char.toLower⟩

/-- Worker for `pySplit`: `acc` holds the characters of the current word,
in reverse. -/
def pySplitAux : List Char → List Char → List String
  | [], [] => []
  | [], acc => [String.mk acc.reverse]
  | c :: cs, acc =>
    if c.isWhitespace then
      match acc with
      | [] => pySplitAux cs []
      | _ => String.mk acc.reverse :: pySplitAux cs []
    else pySplitAux cs (c :: acc)

/-- Python `str.split()` with no argument: split on runs of whitespace,
discarding empty pieces. -/
def pySplit (s : String) : List String := pySplitAux s.data []

/-- Python slice `s[:n]` on a string, by code point. -/
def pyTake (n : Nat) (s : String) : String := ⟨s.data.take n⟩

/-- Python slice `l[:k]` for an `int` bound `k`: a nonnegative bound takes
the first `k` elements (clamped to the length); a negative bound drops the
last `-k` elements (clamped to the empty list). -/
def pySlice {α : Type} (k : Int) (l : List α) : List α :=
  l.take (if 0 ≤ k then k.toNat else ((l.length : Int) + k).toNat)

/-- First-occurrence deduplication; stands in for Python's `set(words)`
(the set's iteration order is unobservable here, because each distinct
word is processed once per call and distinct words touch distinct index
entries). -/
def pyDedupAux : List String → List String → List String
  | [], _ => []
  | x :: xs, seen =>
    if x ∈ seen then pyDedupAux xs seen else x :: pyDedupAux xs (x :: seen)

/-- First-occurrence deduplication (`pyDedupAux l []`). -/
def pyDedup (l : List String) : List String := pyDedupAux l []

/-- Stable insert for a descending sort by `key`: `x` goes in front of the
first element whose key is `≤ key x`, so earlier elements win ties. -/
def insertDesc {α β : Type} [LinearOrder β] (key : α → β) (x : α) :
    List α → List α
  | [] => [x]
  | y :: ys => if key y ≤ key x then x :: y :: ys else y :: insertDesc key x ys

/-- Python `sorted(l, key=key, reverse=True)`: stable descending sort. -/
def sortDescBy {α β : Type} [LinearOrder β] (key : α → β) : List α → List α
  | [] => []
  | x :: xs => insertDesc key x (sortDescBy key xs)

/-! ## DocumentStore -/

/-- State of `DocumentStore.__init__`: the document table, the inverted
word index and the metadata table, all Python dicts. -/
structure DocumentStore where
  documents : List (String × String)
  document_index : List (String × List String)
  metadata_store : List (String × List (String × String))
deriving DecidableEq

/-- The fresh store `DocumentStore()`. -/
def DocumentStore.empty : DocumentStore := ⟨[], [], []⟩

/-- The method `DocumentStore.add_document(doc_id, content, metadata)`.  The
`datetime.now().isoformat()` timestamp is the injected argument `now`. -/
def add_document (s : DocumentStore) (doc_id content : String)
    (metadata : List (String × String)) (now : String) : DocumentStore :=
  let documents := dictInsert s.documents doc_id content
  let metadata_store :=
    dictInsert s.metadata_store doc_id (dictInsert metadata "added_at" now)
  let words := pySplit (pyLower content)
  let document_index :=
    (pyDedup words).foldl
      (fun idx w => dictInsert idx w (dictGetD idx w [] ++ [doc_id]))
      s.document_index
  { documents, document_index, metadata_store }

/-- One element of the list returned by `search_documents`. -/
structure SearchResult where
  doc_id : String
  content : String
  score : Nat
  metadata : List (String × String)
deriving DecidableEq

/-- Inner loop of the score accumulation of `search_documents`:
`doc_scores[doc_id] = doc_scores.get(doc_id, 0) + 1` for every doc id in
one index entry. -/
def incrScores (acc : List (String × Nat)) (entry : List String) :
    List (String × Nat) :=
  entry.foldl (fun acc2 d => dictInsert acc2 d (dictGetD acc2 d 0 + 1)) acc

/-- The score accumulation of `search_documents`, over every query word
occurrence (words absent from the index are skipped). -/
def docScores (s : DocumentStore) (query_words : List String) :
    List (String × Nat) :=
  query_words.foldl
    (fun acc w =>
      match dictGet? s.document_index w with
      | none => acc
      | some entry => incrScores acc entry)
    []

/-- The method `DocumentStore.search_documents(query, top_k)`. -/
def search_documents (s : DocumentStore) (query : String) (top_k : Int) :
    List SearchResult :=
  let query_words := pySplit (pyLower query)
  let ranked := pySlice top_k (sortDescBy (fun p => p.2) (docScores s query_words))
  ranked.map (fun p =>
    { doc_id := p.1
      content := pyTake 200 (dictGetD s.documents p.1 "")
      score := p.2
      metadata := dictGetD s.metadata_store p.1 [] })

/-! ## EmbeddingGenerator -/

/-- Modelled from the spec: `hashlib.md5` is an external collaborator (a
cryptographic-quality hash with a fixed-size 128-bit digest, used only as
a deterministic pseudo-random expansion source, swappable without
changing the embedding shape contract).  It is modelled as an arbitrary
deterministic 128-bit digest of the text: a polynomial fold over the
characters, reduced modulo `2 ^ 128` exactly as
`int(hash_obj.hexdigest(), 16)` is bounded by `2 ^ 128`. -/
def md5Nat (text : String) : Nat :=
  (text.data.foldl (fun h c => h * 131 + c.toNat + 1) 5381) % 2 ^ 128

/-- State of `EmbeddingGenerator.__init__(embedding_dim=384)`. -/
structure EmbeddingGenerator where
  embedding_dim : Nat
  embeddings : List (String × List ℚ)
deriving DecidableEq

/-- The fresh generator `EmbeddingGenerator()` with the default dimension. -/
def EmbeddingGenerator.default : EmbeddingGenerator := ⟨384, []⟩

/-- The method `EmbeddingGenerator.generate_embedding(text)`: component `i` is
`float((hash_int >> i) % 100) / 100.0`, an exact two-digit decimal. -/
def generate_embedding (g : EmbeddingGenerator) (text : String) : List ℚ :=
  let hash_int := md5Nat text
  (List.range g.embedding_dim).map
    (fun i => ((hash_int >>> i) % 100 : ℚ) / 100)

/-- The method `EmbeddingGenerator.store_embedding(doc_id, embedding)`. -/
def store_embedding (g : EmbeddingGenerator) (doc_id : String)
    (embedding : List ℚ) : EmbeddingGenerator :=
  { g with embeddings := dictInsert g.embeddings doc_id embedding }

/-- The dot product `sum(a * b for a, b in zip(emb1, emb2))` — `zip` truncates to the
shorter list. -/
def dotProd (emb1 emb2 : List ℚ) : ℚ :=
  (List.zipWith (fun a b => a * b) emb1 emb2).sum

/-- The squared magnitude `sum(a ** 2 for a in emb)`. -/
def sumSq (emb : List ℚ) : ℚ := (emb.map (fun a => a * a)).sum

/-- The magnitude `sum(a ** 2 for a in emb) ** 0.5`, in the real idealisation of float
arithmetic. -/
noncomputable def magnitude (emb : List ℚ) : ℝ := Real.sqrt (sumSq emb : ℚ)

/-- The method `EmbeddingGenerator.similarity_score(emb1, emb2)`: cosine similarity,
`0.0` when either magnitude is zero. -/
noncomputable def similarity_score (emb1 emb2 : List ℚ) : ℝ :=
  if magnitude emb1 = 0 ∨ magnitude emb2 = 0 then 0
  else (dotProd emb1 emb2 : ℚ) / (magnitude emb1 * magnitude emb2)

/-! ## ContextRetriever -/

/-- One element of the list returned by `retrieve_context`. -/
structure ContextResult where
  doc_id : String
  content : String
  similarity : ℝ
  metadata : List (String × String)

/-- The part of `retrieve_context` after the keyword search: embed the
query, embed each candidate's excerpt, attach the similarity (the keyword
`score` field of a search result is dropped here) and stable-sort by
similarity descending. -/
noncomputable def contextFromResults (g : EmbeddingGenerator) (query : String)
    (search_results : List SearchResult) : List ContextResult :=
  let query_embedding := generate_embedding g query
  let context_results := search_results.map (fun r =>
    { doc_id := r.doc_id
      content := r.content
      similarity :=
        similarity_score query_embedding (generate_embedding g r.content)
      metadata := r.metadata })
  sortDescBy (fun c => c.similarity) context_results

/-- The method `ContextRetriever.retrieve_context(query, top_k)`. -/
noncomputable def retrieve_context (s : DocumentStore) (g : EmbeddingGenerator)
    (query : String) (top_k : Int) : List ContextResult :=
  contextFromResults g query (search_documents s query top_k)

/-! ## ResponseGenerator -/

/-- One entry `{"doc_id": ..., "relevance": ...}` of the `sources` list. -/
structure SourceRef where
  doc_id : String
  relevance : ℝ

/-- The dict returned by `generate_response`. -/
structure RAGResponse where
  query : String
  response : String
  context_used : Nat
  sources : List SourceRef
  student_id : Option String
  generated_at : String

/-- The method `ResponseGenerator._build_response(query, context)`. -/
def buildResponse (query : String) (context : List ContextResult) : String :=
  match context with
  | [] => "I couldn't find relevant information about: " ++ query
  | _ =>
    "Based on available educational materials:\n" ++
      String.join (context.enum.map (fun p =>
        "\n" ++ toString (p.1 + 1) ++ ". " ++ pyTake 150 p.2.content ++ "...")) ++
      "\n\nWould you like me to explain any part of this further?"

/-- The method `ResponseGenerator.generate_response(query, student_id)`; the
`datetime.now().isoformat()` timestamp is the injected argument `now`. -/
noncomputable def generate_response (s : DocumentStore) (g : EmbeddingGenerator)
    (query : String) (student_id : Option String) (now : String) : RAGResponse :=
  let context := retrieve_context s g query 3
  { query := query
    response := buildResponse query context
    context_used := context.length
    sources := context.map (fun c => ⟨c.doc_id, c.similarity⟩)
    student_id := student_id
    generated_at := now }

/-! ## Derived notions used by the statements -/

/-- The inverted-index entry of a word (empty when the word is not
indexed). -/
def indexEntry (s : DocumentStore) (w : String) : List String :=
  dictGetD s.document_index w []

/-- Number of occurrences of `d` in a list of doc ids. -/
def countOcc (d : String) : List String → Nat
  | [] => 0
  | x :: xs => (if x = d then 1 else 0) + countOcc d xs

/-- The score `search_documents` actually assigns to a document: one
point per query word occurrence per occurrence of the doc id in that
word's index entry. -/
def keywordScore (s : DocumentStore) (query d : String) : Nat :=
  ((pySplit (pyLower query)).map (fun w => countOcc d (indexEntry s w))).sum

/-- The score as the specification words it: the number of distinct query
words whose index entry contains the doc id. -/
def distinctMatchCount (s : DocumentStore) (query d : String) : Nat :=
  ((pyDedup (pySplit (pyLower query))).filter (fun w => d ∈ indexEntry s w)).length

/-- A search result without its keyword score. -/
def dropScore (r : SearchResult) : String × String × List (String × String) :=
  (r.doc_id, r.content, r.metadata)

/-! ## Example stores for concrete instances -/

/-- A store holding the single one-word document `"a"` under id `"d"`. -/
def storeA : DocumentStore := add_document DocumentStore.empty "d" "a" [] "t0"

/-- Store `storeA` with its document re-added (same id, same content). -/
def storeA2 : DocumentStore := add_document storeA "d" "a" [] "t1"

/-- A store holding one English sentence under id `"d1"`. -/
def storePy : DocumentStore :=
  add_document DocumentStore.empty "d1" "Python is a programming language" [] "t0"

/-! ## Reachable DocumentStore states -/

/-- Stores reachable from `DocumentStore()` by `add_document` calls (the
only mutating operation of the class). -/
inductive Reachable : DocumentStore → Prop
  | empty : Reachable DocumentStore.empty
  | add (s : DocumentStore) (doc_id content : String)
      (metadata : List (String × String)) (now : String) :
      Reachable s → Reachable (add_document s doc_id content metadata now)

/-! ## Dictionary lemmas -/

theorem dictGet?_dictInsert {α : Type} (m : List (String × α)) (k j : String)
    (v : α) :
    dictGet? (dictInsert m k v) j = if j = k then some v else dictGet? m j := by
  induction m with
  | nil =>
    by_cases h : j = k
    · subst h; simp [dictInsert, dictGet?]
    · simp [dictInsert, dictGet?, h, Ne.symm h]
  | cons p rest ih =>
    obtain ⟨k', v'⟩ := p
    by_cases hk : k' = k
    · subst hk
      by_cases hj : j = k'
      · subst hj; simp [dictInsert, dictGet?]
      · simp [dictInsert, dictGet?, hj, Ne.symm hj]
    · by_cases hj : j = k'
      · subst hj
        simp [dictInsert, dictGet?, hk, Ne.symm hk]
      · simp [dictInsert, dictGet?, hk, hj, Ne.symm hj, ih]

theorem dictGetD_dictInsert {α : Type} (m : List (String × α)) (k j : String)
    (v d : α) :
    dictGetD (dictInsert m k v) j d = if j = k then v else dictGetD m j d := by
  unfold dictGetD
  rw [dictGet?_dictInsert]
  by_cases h : j = k <;> simp [h]

theorem dictContains_dictInsert {α : Type} (m : List (String × α))
    (k j : String) (v : α) :
    dictContains (dictInsert m k v) j = true ↔
      j = k ∨ dictContains m j = true := by
  unfold dictContains
  rw [dictGet?_dictInsert]
  by_cases h : j = k <;> simp [h]

/-- Keys present in a dict. -/
def NodupKeys {α : Type} (m : List (String × α)) : Prop :=
  (m.map Prod.fst).Nodup

theorem mem_keys_dictInsert {α : Type} (m : List (String × α)) (k j : String)
    (v : α) :
    j ∈ (dictInsert m k v).map Prod.fst ↔ j = k ∨ j ∈ m.map Prod.fst := by
  induction m with
  | nil => simp [dictInsert]
  | cons p rest ih =>
    obtain ⟨k', v'⟩ := p
    by_cases hk : k' = k
    · subst hk; simp [dictInsert]
    · simp only [dictInsert, if_neg hk, List.map_cons, List.mem_cons, ih]
      tauto

theorem nodupKeys_dictInsert {α : Type} (m : List (String × α)) (k : String)
    (v : α) (h : NodupKeys m) : NodupKeys (dictInsert m k v) := by
  induction m with
  | nil => simp [NodupKeys, dictInsert]
  | cons p rest ih =>
    obtain ⟨k', v'⟩ := p
    simp only [NodupKeys, List.map_cons, List.nodup_cons] at h
    by_cases hk : k' = k
    · subst hk
      simpa [NodupKeys, dictInsert] using h
    · have hrest := ih h.2
      simp only [NodupKeys, dictInsert, if_neg hk, List.map_cons,
        List.nodup_cons]
      refine ⟨?_, hrest⟩
      rw [mem_keys_dictInsert]
      rintro (hh | hh)
      · exact hk hh
      · exact h.1 hh

theorem dictGet?_eq_of_mem {α : Type} {m : List (String × α)} {k : String}
    {v : α} (hnd : NodupKeys m) (hmem : (k, v) ∈ m) :
    dictGet? m k = some v := by
  induction m with
  | nil => simp at hmem
  | cons p rest ih =>
    obtain ⟨k', v'⟩ := p
    simp only [NodupKeys, List.map_cons, List.nodup_cons] at hnd
    rcases List.mem_cons.mp hmem with hh | hh
    · cases hh
      simp [dictGet?]
    · have hne : k' ≠ k := by
        intro he
        subst he
        exact hnd.1 (List.mem_map_of_mem Prod.fst hh)
      simp [dictGet?, hne, ih hnd.2 hh]

/-! ## Sorting lemmas -/

theorem mem_insertDesc {α β : Type} [LinearOrder β] (key : α → β) (x y : α)
    (l : List α) : y ∈ insertDesc key x l ↔ y = x ∨ y ∈ l := by
  induction l with
  | nil => simp [insertDesc]
  | cons z zs ih =>
    by_cases h : key z ≤ key x
    · simp [insertDesc, h]
    · simp only [insertDesc, if_neg h, List.mem_cons, ih]
      tauto

theorem pairwise_insertDesc {α β : Type} [LinearOrder β] (key : α → β) (x : α)
    (l : List α) (h : l.Pairwise (fun a b => key b ≤ key a)) :
    (insertDesc key x l).Pairwise (fun a b => key b ≤ key a) := by
  induction l with
  | nil => simp [insertDesc]
  | cons z zs ih =>
    rcases List.pairwise_cons.mp h with ⟨hz, hzs⟩
    by_cases hle : key z ≤ key x
    · rw [insertDesc, if_pos hle]
      refine List.pairwise_cons.mpr ⟨?_, h⟩
      intro y hy
      rcases List.mem_cons.mp hy with rfl | hy
      · exact hle
      · exact le_trans (hz y hy) hle
    · rw [insertDesc, if_neg hle]
      refine List.pairwise_cons.mpr ⟨?_, ih hzs⟩
      intro y hy
      rcases (mem_insertDesc key x y zs).mp hy with rfl | hy
      · exact le_of_lt (lt_of_not_le hle)
      · exact hz y hy

theorem mem_sortDescBy {α β : Type} [LinearOrder β] (key : α → β) (y : α)
    (l : List α) : y ∈ sortDescBy key l ↔ y ∈ l := by
  induction l with
  | nil => simp [sortDescBy]
  | cons z zs ih => simp [sortDescBy, mem_insertDesc, ih]

theorem pairwise_sortDescBy {α β : Type} [LinearOrder β] (key : α → β)
    (l : List α) :
    (sortDescBy key l).Pairwise (fun a b => key b ≤ key a) := by
  induction l with
  | nil => simp [sortDescBy]
  | cons z zs ih => exact pairwise_insertDesc key z _ ih

/-! ## Score accumulation lemmas -/

theorem dictGetD_incrScores (acc : List (String × Nat)) (entry : List String)
    (x : String) :
    dictGetD (incrScores acc entry) x 0 = dictGetD acc x 0 + countOcc x entry := by
  induction entry generalizing acc with
  | nil => simp [incrScores, countOcc]
  | cons d ds ih =>
    show dictGetD (incrScores (dictInsert acc d (dictGetD acc d 0 + 1)) ds) x 0 = _
    rw [ih, dictGetD_dictInsert]
    by_cases h : x = d
    · subst h; simp [countOcc]; omega
    · simp [countOcc, h, Ne.symm h]

theorem nodupKeys_incrScores (acc : List (String × Nat)) (entry : List String)
    (h : NodupKeys acc) : NodupKeys (incrScores acc entry) := by
  induction entry generalizing acc with
  | nil => exact h
  | cons d ds ih =>
    exact ih _ (nodupKeys_dictInsert _ _ _ h)

theorem dictGetD_docScoresAux (s : DocumentStore) (ws : List String)
    (acc : List (String × Nat)) (x : String) :
    dictGetD
      (ws.foldl
        (fun acc w =>
          match dictGet? s.document_index w with
          | none => acc
          | some entry => incrScores acc entry)
        acc)
      x 0 =
      dictGetD acc x 0 + ((ws.map (fun w => countOcc x (indexEntry s w))).sum) := by
  induction ws generalizing acc with
  | nil => simp
  | cons w ws ih =>
    rw [List.foldl_cons, List.map_cons, List.sum_cons, ih]
    cases he : dictGet? s.document_index w with
    | none => simp [indexEntry, dictGetD, he, countOcc]
    | some entry =>
      simp only [he]
      rw [dictGetD_incrScores]
      simp only [indexEntry, dictGetD, he, Option.getD_some]
      omega

theorem dictGetD_docScores (s : DocumentStore) (ws : List String) (x : String) :
    dictGetD (docScores s ws) x 0 =
      ((ws.map (fun w => countOcc x (indexEntry s w))).sum) := by
  unfold docScores
  rw [dictGetD_docScoresAux]
  simp [dictGetD, dictGet?]

theorem nodupKeys_docScores (s : DocumentStore) (ws : List String) :
    NodupKeys (docScores s ws) := by
  unfold docScores
  have : ∀ acc, NodupKeys acc →
      NodupKeys
        (ws.foldl
          (fun acc w =>
            match dictGet? s.document_index w with
            | none => acc
            | some entry => incrScores acc entry)
          acc) := by
    induction ws with
    | nil => intro acc h; exact h
    | cons w ws ih =>
      intro acc h
      rw [List.foldl_cons]
      cases he : dictGet? s.document_index w with
      | none => simpa [he] using ih acc h
      | some entry => simpa [he] using ih _ (nodupKeys_incrScores acc entry h)
  exact this [] (by simp [NodupKeys])

/-! ## Claim theorems: DocumentStore -/

/-- Invariant transfer through the indexing loop of `add_document`: if
every doc id already in the index satisfies `docs_ok` and the inserted
`doc_id` does too, then every doc id in the updated index satisfies
`docs_ok`. -/
theorem foldIndex_invariant (docs_ok : String → Prop) (doc_id : String)
    (hid : docs_ok doc_id) :
    ∀ (ws : List String) (idx : List (String × List String)),
      (∀ w entry, dictGet? idx w = some entry → ∀ d ∈ entry, docs_ok d) →
      ∀ w entry,
        dictGet?
          (ws.foldl
            (fun idx w => dictInsert idx w (dictGetD idx w [] ++ [doc_id]))
            idx)
          w = some entry →
        ∀ d ∈ entry, docs_ok d := by
  intro ws
  induction ws with
  | nil => intro idx h; exact h
  | cons w0 ws ih =>
    intro idx h w entry he d hd
    rw [List.foldl_cons] at he
    refine ih _ ?_ w entry he d hd
    intro w' entry' he' d' hd'
    rw [dictGet?_dictInsert] at he'
    by_cases hw : w' = w0
    · rw [if_pos hw] at he'
      cases he'
      rcases List.mem_append.mp hd' with hh | hh
      · cases hg : dictGet? idx w0 with
        | none => simp [dictGetD, hg] at hh
        | some e0 =>
          simp only [dictGetD, hg, Option.getD_some] at hh
          exact h w0 e0 hg d' hh
      · rw [List.mem_singleton] at hh
        subst hh
        exact hid
    · rw [if_neg hw] at he'
      exact h w' entry' he' d' hd'

/-- C9: after any sequence of `DocumentStore` operations (`add_document`
is the only mutating one), every doc id appearing in any inverted-index
entry is a key of the document table — no orphaned index entries. -/
theorem index_no_orphans :
    ∀ s : DocumentStore, Reachable s →
      ∀ w entry, dictGet? s.document_index w = some entry →
        ∀ d ∈ entry, dictContains s.documents d = true := by
  intro s hs
  induction hs with
  | empty =>
    intro w entry he
    simp [DocumentStore.empty, dictGet?] at he
  | add s doc_id content metadata now hrec ih =>
    intro w entry he d hd
    simp only [add_document] at he ⊢
    have hid : dictContains (dictInsert s.documents doc_id content) doc_id = true :=
      (dictContains_dictInsert _ _ _ _).mpr (Or.inl rfl)
    refine foldIndex_invariant
      (fun d => dictContains (dictInsert s.documents doc_id content) d = true)
      doc_id hid (pyDedup (pySplit (pyLower content))) s.document_index
      ?_ w entry he d hd
    intro w' e' he' d' hd'
    exact (dictContains_dictInsert _ _ _ _).mpr (Or.inr (ih w' e' he' d' hd'))

/-- C9 witness: a concrete reachable store whose only index entry points
at a stored document. -/
theorem index_no_orphans_witness :
    dictContains storeA.documents "d" = true :=
  index_no_orphans storeA
    (Reachable.add DocumentStore.empty "d" "a" [] "t0" Reachable.empty)
    "a" ["d"] (by decide) "d" (by decide)

/-- C2 (code bug exhibited): re-adding doc id `"d"` with the same one-word
content `"a"` leaves the index entry of token `"a"` holding `"d"` twice —
the per-token set semantics the claim states is violated by the code. -/
theorem add_document_duplicate_index_entry :
    dictGet? storeA2.document_index "a" = some ["d", "d"] ∧
    countOcc "d" (indexEntry storeA2 "a") = 2 := by decide

/-- C3 (code bug exhibited): with `top_k = -1`, `search_documents` raises
no error; the Python slice `[:top_k]` silently drops results — here the
sole matching document, returning an empty, well-formed list (the second
conjunct shows the same query with `top_k = 1` does return it). -/
theorem search_documents_negative_top_k_silent :
    search_documents storeA "a" (-1) = [] ∧
    search_documents storeA "a" 1 =
      [{ doc_id := "d", content := "a", score := 1,
         metadata := [("added_at", "t0")] }] := by decide

/-- C1 counterexample: on the store holding the single document `"a"`
under id `"d"`, the query `"a a"` (the same word twice) returns that
document with score 2, while only one distinct query word has an index
entry containing `"d"` — the claimed score law fails. -/
theorem search_documents_distinct_count_counterexample :
    (search_documents storeA "a a" 5).map (fun r => (r.doc_id, r.score)) =
      [("d", 2)] ∧
    distinctMatchCount storeA "a a" "d" = 1 := by decide

/-- C1 (amended): each returned document's score is the number of query
word *occurrences* (counted with multiplicity in the query) weighted by
the number of occurrences of the doc id in that word's index entry, and
the returned sequence is ordered by this score descending. -/
theorem search_documents_score_amended :
    (∀ (s : DocumentStore) (q : String) (k : Int) (r : SearchResult),
        r ∈ search_documents s q k → r.score = keywordScore s q r.doc_id) ∧
    (∀ (s : DocumentStore) (q : String) (k : Int),
        (search_documents s q k).Pairwise (fun a b => b.score ≤ a.score)) := by
  constructor
  · intro s q k r hr
    simp only [search_documents] at hr
    rcases List.mem_map.mp hr with ⟨p, hp, rfl⟩
    have hp' : p ∈ sortDescBy (fun p => p.2) (docScores s (pySplit (pyLower q))) := by
      unfold pySlice at hp
      exact List.mem_of_mem_take hp
    have hp'' : p ∈ docScores s (pySplit (pyLower q)) :=
      (mem_sortDescBy _ _ _).mp hp'
    obtain ⟨d, v⟩ := p
    have hget : dictGet? (docScores s (pySplit (pyLower q))) d = some v :=
      dictGet?_eq_of_mem (nodupKeys_docScores s _) hp''
    show v = keywordScore s q d
    have hval := dictGetD_docScores s (pySplit (pyLower q)) d
    unfold keywordScore
    rw [← hval]
    simp [dictGetD, hget]
  · intro s q k
    simp only [search_documents]
    refine (List.pairwise_map).mpr ?_
    have base :
        (sortDescBy (fun p : String × Nat => p.2)
            (docScores s (pySplit (pyLower q)))).Pairwise
          (fun a b => b.2 ≤ a.2) :=
      pairwise_sortDescBy (fun p : String × Nat => p.2) _
    unfold pySlice
    exact List.Pairwise.sublist (List.take_sublist _ _) base

/-- C1 witness: the amended score law and the descending order, at the
store holding document `"a"` under id `"d"` and the query `"a a"`. -/
theorem search_documents_score_amended_witness :
    ({ doc_id := "d", content := "a", score := 2,
       metadata := [("added_at", "t0")] } : SearchResult).score =
        keywordScore storeA "a a" "d" ∧
    (search_documents storeA "a a" 5).Pairwise (fun a b => b.score ≤ a.score) :=
  ⟨search_documents_score_amended.1 storeA "a a" 5
      { doc_id := "d", content := "a", score := 2,
        metadata := [("added_at", "t0")] } (by decide),
    search_documents_score_amended.2 storeA "a a" 5⟩

/-! ## Claim theorems: EmbeddingGenerator -/

theorem md5Nat_lt (t : String) : md5Nat t < 2 ^ 128 :=
  Nat.mod_lt _ (by positivity)

/-- C5: `generate_embedding` is a pure, deterministic function of its
text argument: any two generators with the same `embedding_dim` produce
the same vector regardless of their mutable `embeddings` table, and
storing an embedding (the only state change of the class) does not change
what `generate_embedding` returns. -/
theorem generate_embedding_deterministic :
    (∀ (g g' : EmbeddingGenerator) (t : String),
        g.embedding_dim = g'.embedding_dim →
        generate_embedding g t = generate_embedding g' t) ∧
    (∀ (g : EmbeddingGenerator) (doc_id : String) (emb : List ℚ) (t : String),
        generate_embedding (store_embedding g doc_id emb) t =
          generate_embedding g t) := by
  constructor
  · intro g g' t h
    simp only [generate_embedding, h]
  · intro g doc_id emb t
    rfl

/-- C5 witness: two generators with the default dimension but different
embedding tables agree on `"hello"`, and storing an embedding changes
nothing. -/
theorem generate_embedding_deterministic_witness :
    generate_embedding ⟨384, []⟩ "hello" =
        generate_embedding ⟨384, [("x", [1])]⟩ "hello" ∧
    generate_embedding (store_embedding ⟨384, []⟩ "x" [1]) "hello" =
        generate_embedding ⟨384, []⟩ "hello" :=
  ⟨generate_embedding_deterministic.1 ⟨384, []⟩ ⟨384, [("x", [1])]⟩ "hello" rfl,
    generate_embedding_deterministic.2 ⟨384, []⟩ "x" [1] "hello"⟩

/-- C10: every component of a generated embedding at index 128 or greater
is exactly 0 — the 128-bit hash shifted right by that much vanishes, so
with the default dimension 384 only the first 128 components can depend
on the text. -/
theorem generate_embedding_tail_zero :
    ∀ (g : EmbeddingGenerator) (t : String) (i : Nat),
      128 ≤ i → i < g.embedding_dim →
      (generate_embedding g t).get? i = some 0 := by
  intro g t i h128 hdim
  simp only [generate_embedding]
  rw [List.get?_map, List.get?_range hdim]
  have hzero : md5Nat t >>> i = 0 := by
    rw [Nat.shiftRight_eq_div_pow]
    exact Nat.div_eq_of_lt
      (lt_of_lt_of_le (md5Nat_lt t) (Nat.pow_le_pow_right (by norm_num) h128))
  simp [hzero]

/-- C10 witness: component 130 of the default-dimension embedding of
`"hello"` is 0. -/
theorem generate_embedding_tail_zero_witness :
    (generate_embedding EmbeddingGenerator.default "hello").get? 130 = some 0 :=
  generate_embedding_tail_zero EmbeddingGenerator.default "hello" 130
    (by norm_num) (by decide)

/-- C6: `similarity_score` is symmetric in its two vector arguments. -/
theorem similarity_score_symm :
    ∀ a b : List ℚ, similarity_score a b = similarity_score b a := by
  intro a b
  have hdot : dotProd a b = dotProd b a := by
    unfold dotProd
    exact congrArg List.sum (List.zipWith_comm_of_comm _ mul_comm a b)
  by_cases h : magnitude a = 0 ∨ magnitude b = 0
  · rw [similarity_score, similarity_score, if_pos h, if_pos h.symm]
  · rw [similarity_score, similarity_score, if_neg h,
      if_neg (fun hh => h hh.symm), hdot, mul_comm]

/-- C7: with a zero-magnitude argument `similarity_score` returns exactly
0; the division branch is reached only when both magnitudes are nonzero,
and there the divisor is provably nonzero — no division by zero. -/
theorem similarity_score_zero_magnitude :
    ∀ a b : List ℚ,
      (magnitude a = 0 ∨ magnitude b = 0 → similarity_score a b = 0) ∧
      (magnitude a ≠ 0 → magnitude b ≠ 0 →
        magnitude a * magnitude b ≠ 0 ∧
        similarity_score a b =
          (dotProd a b : ℚ) / (magnitude a * magnitude b)) := by
  intro a b
  constructor
  · intro h
    rw [similarity_score, if_pos h]
  · intro ha hb
    have hcond : ¬(magnitude a = 0 ∨ magnitude b = 0) := by
      rintro (h | h)
      exacts [ha h, hb h]
    exact ⟨mul_ne_zero ha hb, by rw [similarity_score, if_neg hcond]⟩

/-- C7 witness: the all-zero vector `[0]` has zero magnitude, and its
similarity with `[1, 2]` is exactly 0. -/
theorem similarity_score_zero_magnitude_witness :
    similarity_score [(0 : ℚ)] [(1 : ℚ), 2] = 0 :=
  (similarity_score_zero_magnitude [0] [1, 2]).1
    (Or.inl (by simp [magnitude, sumSq]))

/-! ## Claim theorems: ContextRetriever and ResponseGenerator -/

/-- C4: the sequence returned by `retrieve_context` is sorted by its
similarity score in descending order, and the candidate phase after the
keyword search is invariant under changing the keyword scores of the
candidates — the keyword score only determines which candidates enter
the pool, not the final order. -/
theorem retrieve_context_sorted_by_similarity :
    (∀ (s : DocumentStore) (g : EmbeddingGenerator) (q : String) (k : Int),
        (retrieve_context s g q k).Pairwise
          (fun a b => b.similarity ≤ a.similarity)) ∧
    (∀ (g : EmbeddingGenerator) (q : String) (rs rs' : List SearchResult),
        rs.map dropScore = rs'.map dropScore →
        contextFromResults g q rs = contextFromResults g q rs') := by
  constructor
  · intro s g q k
    simp only [retrieve_context, contextFromResults]
    exact pairwise_sortDescBy (fun c : ContextResult => c.similarity) _
  · intro g q rs rs' h
    simp only [contextFromResults]
    refine congrArg (sortDescBy fun c : ContextResult => c.similarity) ?_
    have key : ∀ l : List SearchResult,
        l.map (fun r =>
          ({ doc_id := r.doc_id, content := r.content
             similarity := similarity_score (generate_embedding g q)
               (generate_embedding g r.content)
             metadata := r.metadata } : ContextResult)) =
          (l.map dropScore).map (fun p =>
            ({ doc_id := p.1, content := p.2.1
               similarity := similarity_score (generate_embedding g q)
                 (generate_embedding g p.2.1)
               metadata := p.2.2 } : ContextResult)) := by
      intro l
      rw [List.map_map]
      rfl
    exact (key rs).trans ((congrArg _ h).trans (key rs').symm)

/-- C4 witness: a concrete sorted retrieval, and two singleton candidate
lists differing only in their keyword score yielding the same context. -/
theorem retrieve_context_sorted_by_similarity_witness :
    (retrieve_context storePy EmbeddingGenerator.default "python" 3).Pairwise
      (fun a b => b.similarity ≤ a.similarity) ∧
    contextFromResults EmbeddingGenerator.default "q"
        [{ doc_id := "d", content := "c", score := 5, metadata := [] }] =
      contextFromResults EmbeddingGenerator.default "q"
        [{ doc_id := "d", content := "c", score := 7, metadata := [] }] :=
  ⟨retrieve_context_sorted_by_similarity.1 storePy EmbeddingGenerator.default
      "python" 3,
    retrieve_context_sorted_by_similarity.2 EmbeddingGenerator.default "q"
      [{ doc_id := "d", content := "c", score := 5, metadata := [] }]
      [{ doc_id := "d", content := "c", score := 7, metadata := [] }]
      (by decide)⟩

/-- C8: when the query matches no stored document (the keyword search
returns nothing), `generate_response` reports `context_used = 0`, an
empty `sources` list, and the fixed fallback text carrying the literal
query string. -/
theorem generate_response_no_context_fallback :
    ∀ (s : DocumentStore) (g : EmbeddingGenerator) (q : String)
      (sid : Option String) (now : String),
      search_documents s q 3 = [] →
      (generate_response s g q sid now).context_used = 0 ∧
      (generate_response s g q sid now).sources = [] ∧
      (generate_response s g q sid now).response =
        "I couldn't find relevant information about: " ++ q := by
  intro s g q sid now h
  have hctx : retrieve_context s g q 3 = [] := by
    simp only [retrieve_context, h, contextFromResults, List.map_nil, sortDescBy]
  refine ⟨?_, ?_, ?_⟩ <;>
    simp only [generate_response, hctx, buildResponse, List.length_nil,
      List.map_nil]

/-- C8 witness: the query `"quantum"` matches nothing in the store
holding one English sentence, so the response degrades to the fallback
message echoing the query. -/
theorem generate_response_no_context_fallback_witness :
    (generate_response storePy EmbeddingGenerator.default "quantum" none
        "t1").context_used = 0 ∧
    (generate_response storePy EmbeddingGenerator.default "quantum" none
        "t1").sources = [] ∧
    (generate_response storePy EmbeddingGenerator.default "quantum" none
        "t1").response =
      "I couldn't find relevant information about: " ++ "quantum" :=
  generate_response_no_context_fallback storePy EmbeddingGenerator.default
    "quantum" none "t1" (by decide)

end RAG
